import Mathlib

/-!
Verification of the polar projection and interactive pan/zoom subsystem of
matplotlib 1.0.0 (`matplotlib/projections/polar.py`), as a shallow embedding
in Lean 4.

Modelling conventions:
* A point batch is a `List (ℝ × ℝ)`; the numpy code operates row-wise with no
  cross-row dependency, so the batch transform is the map of the row transform.
* The numpy `nan` sentinel produced by the `rmin`-masking branch is modelled by
  `Option ℝ` on each output coordinate (`none` = nan).  Inputs to the inverse
  transform are plain reals, as in the source, which only feeds it finite
  display coordinates.
* The mutable axis reference `self._axis` is modelled by `Option ℝ` carrying
  the value of `axis.viewLim.ymin` (`rmin`) read at transform time; `none`
  models the unbound variant (`PolarTransform()` with `axis=None`).
* `Affine2D` is matplotlib's 3×3 affine matrix `[[a, b, c], [d, e, f],
  [0, 0, 1]]` acting on column vectors; matplotlib's `.scale`/`.translate`
  left-multiply the current matrix by the scale/translation matrix.
  `to_values()` returns `(a, d, b, e, c, f)`, so `to_values()[4]` is the `c`
  entry (x translation) and `to_values()[5]` is the `f` entry (y translation).
-/

namespace PolarSpec

/-- matplotlib `Affine2D`: the matrix `[[a, b, c], [d, e, f], [0, 0, 1]]`. -/
structure Affine2D where
  a : ℝ
  b : ℝ
  c : ℝ
  d : ℝ
  e : ℝ
  f : ℝ

namespace Affine2D

/-- `Affine2D()`: the identity matrix. -/
def identity : Affine2D := ⟨1, 0, 0, 0, 1, 0⟩

/-- `Affine2D.scale(sx, sy)`: left-multiplies the current matrix by the
diagonal scale matrix. -/
def scale (m : Affine2D) (sx sy : ℝ) : Affine2D :=
  ⟨sx * m.a, sx * m.b, sx * m.c, sy * m.d, sy * m.e, sy * m.f⟩

/-- `Affine2D.translate(tx, ty)`: left-multiplies the current matrix by the
translation matrix. -/
def translate (m : Affine2D) (tx ty : ℝ) : Affine2D :=
  ⟨m.a, m.b, m.c + tx, m.d, m.e, m.f + ty⟩

/-- Applying the affine matrix to a point (`transform_point`). -/
def apply (m : Affine2D) (p : ℝ × ℝ) : ℝ × ℝ :=
  (m.a * p.1 + m.b * p.2 + m.c, m.d * p.1 + m.e * p.2 + m.f)

end Affine2D

namespace PolarTransform

/-- `PolarAxes.PolarTransform.transform`, restricted to one row `(t, r)`.
`axis` is `self._axis` modelled by the value of its `viewLim.ymin`:
`rmin = self._axis.viewLim.ymin` when an axis is bound, else `rmin = 0`.
When `rmin != 0` the radius is shifted by `-rmin` and rows with a negative
shifted radius are masked to the nan sentinel (`none`) on both coordinates. -/
noncomputable def transformPoint (axis : Option ℝ) (p : ℝ × ℝ) : Option ℝ × Option ℝ :=
  let rmin : ℝ := match axis with
    | some ymin => ymin
    | none => 0
  let t := p.1
  let r := p.2
  if rmin ≠ 0 then
    let r' := r - rmin
    if r' < 0 then (none, none)
    else (some (r' * Real.cos t), some (r' * Real.sin t))
  else
    (some (r * Real.cos t), some (r * Real.sin t))

/-- `PolarAxes.PolarTransform.transform` on a whole batch: the numpy code is
row-wise (`x[:] = ...`, `y[:] = ...` with elementwise operators), so the batch
result is the map of the row transform. -/
noncomputable def transform (axis : Option ℝ) (tr : List (ℝ × ℝ)) :
    List (Option ℝ × Option ℝ) :=
  tr.map (transformPoint axis)

end PolarTransform

namespace InvertedPolarTransform

/-- `PolarAxes.InvertedPolarTransform.transform`, restricted to one row
`(x, y)`.  Note the source order: `r = np.sqrt(x*x + y*y)`, then
`r += self._axis.viewLim.ymin` when an axis is bound, and only THEN
`theta = np.arccos(x / r)` — the arccos therefore divides by the
`rmin`-augmented radius.  Rows with `y < 0` get `theta` replaced by
`2*pi - theta`. -/
noncomputable def transformPoint (axis : Option ℝ) (p : ℝ × ℝ) : ℝ × ℝ :=
  let x := p.1
  let y := p.2
  let r0 := Real.sqrt (x * x + y * y)
  let r : ℝ := match axis with
    | some ymin => r0 + ymin
    | none => r0
  let theta := Real.arccos (x / r)
  let theta' := if y < 0 then 2 * Real.pi - theta else theta
  (theta', r)

/-- `PolarAxes.InvertedPolarTransform.transform` on a whole batch. -/
noncomputable def transform (axis : Option ℝ) (xy : List (ℝ × ℝ)) :
    List (ℝ × ℝ) :=
  xy.map (transformPoint axis)

end InvertedPolarTransform

/-- `PolarAxes.PolarTransform.inverted`:
`return PolarAxes.InvertedPolarTransform(self._axis)` — the inverse transform
is bound to the same axis reference. -/
def polarTransformInverted (axis : Option ℝ) : Option ℝ := axis

/-- `PolarAxes.InvertedPolarTransform.inverted`:
`return PolarAxes.PolarTransform()` — the forward transform is constructed
with the default `axis=None`, regardless of `self._axis`. -/
def invertedPolarTransformInverted (axis : Option ℝ) : Option ℝ :=
  match axis with
  | some _ => none
  | none => none

namespace PolarAffine

/-- `PolarAxes.PolarAffine.get_matrix` (the cache-miss recomputation): the
view limits are transformed by the upstream scale transform, `yscale` is the
transformed radial extent, and the matrix is
`Affine2D().scale(0.5 / yscale).translate(0.5, 0.5)`.
The upstream scale transform is modelled as a map `ℝ → ℝ` applied to each
radial bound (the axis scales are separable monotone maps, so the transformed
bounding box's `ymin`/`ymax` are the images of the bounds); the `_invalid`
dirty-bit caching is not modelled — this is the value the cache holds. -/
noncomputable def get_matrix (scale_transform : ℝ → ℝ) (ymin ymax : ℝ) :
    Affine2D :=
  let yscale := scale_transform ymax - scale_transform ymin
  (Affine2D.identity.scale (0.5 / yscale) (0.5 / yscale)).translate 0.5 0.5

end PolarAffine

/-- `np.sign`.  The source line `dt = abs(dt1) * sign(dt0) * -1.0` references
a bare name `sign` that is bound nowhere in the module (it would raise
`NameError` if evaluated); the branch containing it is proved unreachable
below, so modelling it as the numeric sign the line intends does not affect
any observable behaviour. -/
noncomputable def sign (x : ℝ) : ℝ :=
  if x < 0 then -1 else if x = 0 then 0 else 1

/-- The pan gesture mode strings: `''`, `'drag_r_labels'`, `'zoom'`. -/
inductive PanMode
  | idle
  | drag_r_labels
  | zoom

/-- `cbook.Bunch` snapshot stored in `self._pan_start` by
`PolarAxes.start_pan`.  The frozen transform and frozen inverse transform are
modelled as point maps `ℝ × ℝ → ℝ × ℝ` (`transform_point`). -/
structure PanStart where
  rmax : ℝ
  trans : ℝ × ℝ → ℝ × ℝ
  trans_inverse : ℝ × ℝ → ℝ × ℝ
  r_label_angle : ℝ
  x : ℝ
  y : ℝ
  mode : PanMode

/-- The mutable state of the enclosing `PolarAxes` that `drag_pan` touches:
the two radial label position affines and `viewLim.y1` (`rmax`, written by
`set_rmax`). -/
structure AxesState where
  r_label1_position : Affine2D
  r_label2_position : Affine2D
  rmax : ℝ

/-- `PolarAxes.drag_pan(button, key, x, y)`: reads `p = self._pan_start` and,
depending on `p.mode`, either moves the radial label anchors or rescales
`rmax`.  `button` and `key` are unused by the source body.
`self._r_label1_position.to_values()[5]` is the `f` entry (y translation) of
the label affine, and `clear().translate(a, b)` rebuilds it as the pure
translation `(a, b)`. -/
noncomputable def drag_pan (st : AxesState) (p : PanStart) (x y : ℝ) :
    AxesState :=
  match p.mode with
  | PanMode.drag_r_labels =>
    let startt := (p.trans_inverse (p.x, p.y)).1
    let t := (p.trans_inverse (x, y)).1
    let dt0 := t - startt
    let dt1 := startt - t
    let dtr := if |dt1| < |dt0| then |dt1| * sign dt0 * (-1) else dt0 * (-1)
    let dt := dtr / Real.pi * 180
    let rpad := st.r_label1_position.f
    { st with
      r_label1_position :=
        Affine2D.identity.translate (p.r_label_angle - dt) rpad
      r_label2_position :=
        Affine2D.identity.translate (p.r_label_angle - dt) (-rpad) }
  | PanMode.zoom =>
    let startr := (p.trans_inverse (p.x, p.y)).2
    let r := (p.trans_inverse (x, y)).2
    let scale := r / startr
    { st with rmax := p.rmax / scale }
  | PanMode.idle => st

/-- Stated from the SPEC's words, for comparison with the code (claim C4):
the angular delta "choosing the shorter of the two possible directions around
the circle (i.e., wrap-aware difference)".  For angles recovered by the
inverse projection the raw difference `d = t - startt` lies in `(-2π, 2π)`;
the two directions are `d` and `d` shifted by one full turn towards zero, and
the shorter one (smaller absolute value) is chosen. -/
noncomputable def wrapAwareDelta (startt t : ℝ) : ℝ :=
  let d := t - startt
  let d' := if 0 ≤ d then d - 2 * Real.pi else d + 2 * Real.pi
  if |d'| < |d| then d' else d

/-- `PolarAxes.end_pan`: `del self._pan_start`.  Presence of the `_pan_start`
attribute is modelled by `Option PanStart`. -/
def end_pan (pan_start : Option PanStart) : Option PanStart :=
  match pan_start with
  | _ => none

/-- `PolarAxes.drag_pan` as actually entered through the attribute lookup
`p = self._pan_start`: when the attribute is absent (no prior `start_pan`, or
removed by `end_pan`), Python raises `AttributeError` at that first line;
modelled with `Except`. -/
noncomputable def drag_pan_checked (st : AxesState) (pan_start : Option PanStart)
    (x y : ℝ) : Except String AxesState :=
  match pan_start with
  | none => Except.error "AttributeError"
  | some p => Except.ok (drag_pan st p x y)

/-- `PolarAxes.RadialLocator.__call__`:
`ticks = self.base(); return [x for x in ticks if x > 0]`.  The wrapped base
locator is modelled by the candidate list it returns. -/
noncomputable def radialLocator_call (base : List ℝ) : List ℝ :=
  base.filter (fun x => 0 < x)

/-- Modelled from the spec: `Path.interpolated` / the linear resampling it
performs (class `Path` lives in `matplotlib/path.py`, which is not under
src/).  Following the spec's "first resample the path into additional
intermediate vertices according to a configured interpolation density": each
consecutive vertex pair is replaced by `steps` evenly spaced points along the
segment (the pair's first endpoint included), and the final vertex closes the
list, so `n` vertices become `steps * (n - 1) + 1`. -/
noncomputable def interpEdge (steps : ℕ) (p q : ℝ × ℝ) : List (ℝ × ℝ) :=
  (List.range steps).map fun i : ℕ =>
    (p.1 + (q.1 - p.1) * (i : ℝ) / (steps : ℝ), p.2 + (q.2 - p.2) * (i : ℝ) / (steps : ℝ))

/-- Modelled from the spec: the resampled vertex list (see `interpEdge`). -/
noncomputable def interpolated (steps : ℕ) : List (ℝ × ℝ) → List (ℝ × ℝ)
  | [] => []
  | [p] => [p]
  | p :: q :: rest => interpEdge steps p q ++ interpolated steps (q :: rest)

/-- `PolarAxes.PolarTransform.transform_path`: a path of exactly two vertices
with equal first (angle) coordinates is projected directly; every other path
is first resampled with `path._interpolation_steps` and then projected.
Path codes are not modelled (the claims are about vertices). -/
noncomputable def transform_path (axis : Option ℝ) (steps : ℕ)
    (vs : List (ℝ × ℝ)) : List (Option ℝ × Option ℝ) :=
  match vs with
  | [v0, v1] =>
    if v0.1 = v1.1 then PolarTransform.transform axis [v0, v1]
    else PolarTransform.transform axis (interpolated steps [v0, v1])
  | other => PolarTransform.transform axis (interpolated steps other)

end PolarSpec

namespace PolarSpec

/-- C1: the claimed round trip fails on the code.  With `rmin = 1` bound and
the valid, non-boundary, non-degenerate input `(θ, r) = (0, 3)`, the forward
projection produces `(2, 0)`, but the inverse projection bound to the same
`rmin` source maps `(2, 0)` to angle `arccos (2/3) ≠ 0` (the radius 3 is
recovered): the inverse adds `rmin` to the radius before the `arccos`, so the
angle is not recovered, contradicting the claimed `(θ mod 2π, r)` round trip
and the code's own documentation of `InvertedPolarTransform` as the inverse
of the polar transform. -/
theorem polar_roundtrip_fails_with_rmin_bound :
    PolarTransform.transformPoint (some 1) (0, 3) = (some 2, some 0) ∧
    InvertedPolarTransform.transformPoint (some 1) (2, 0) =
      (Real.arccos (2 / 3), 3) ∧
    Real.arccos (2 / 3) ≠ 0 := by
  refine ⟨?_, ?_, ?_⟩
  · simp only [PolarTransform.transformPoint]
    rw [if_pos (by norm_num : (1 : ℝ) ≠ 0), if_neg (by norm_num : ¬(3 - 1 : ℝ) < 0)]
    norm_num [Real.cos_zero, Real.sin_zero]
  · simp only [InvertedPolarTransform.transformPoint]
    have h4 : Real.sqrt (2 * 2 + 0 * 0) = 2 := by
      rw [show (2 * 2 + 0 * 0 : ℝ) = 2 ^ 2 by norm_num]
      exact Real.sqrt_sq (by norm_num)
    rw [if_neg (by norm_num : ¬(0 : ℝ) < 0)]
    rw [h4]
    norm_num
  · intro h
    have h1 : (1 : ℝ) ≤ 2 / 3 := Real.arccos_eq_zero.mp h
    norm_num at h1

/-- C2 counterexample: with an axis bound whose `viewLim.ymin` is `0` and the
row `(θ, r) = (0, -1)` (so `r < rmin`), the forward projection takes the
unmasked `rmin == 0` branch and outputs `(-1, 0)`, not the nan sentinel on
both coordinates. -/
theorem forward_no_mask_when_rmin_zero :
    (-1 : ℝ) < 0 ∧
    PolarTransform.transformPoint (some 0) (0, -1) ≠ (none, none) ∧
    PolarTransform.transformPoint (some 0) (0, -1) = (some (-1), some 0) := by
  refine ⟨by norm_num, ?_, ?_⟩ <;>
    simp [PolarTransform.transformPoint, Real.cos_zero, Real.sin_zero]

/-- C2 amended: for a bound `rmin` source with `rmin ≠ 0`, every input row
`(θ, r)` with `r < rmin` is masked to the nan sentinel on both output
coordinates. -/
theorem forward_masks_below_rmin (rmin θ r : ℝ) (hrmin : rmin ≠ 0)
    (hr : r < rmin) :
    PolarTransform.transformPoint (some rmin) (θ, r) = (none, none) := by
  simp only [PolarTransform.transformPoint]
  rw [if_pos hrmin, if_pos (by linarith : r - rmin < 0)]

/-- Witness for `forward_masks_below_rmin` at `rmin = 1`, `(θ, r) = (0, 0)`. -/
theorem forward_masks_below_rmin_witness :
    ((1 : ℝ) ≠ 0 ∧ (0 : ℝ) < 1) ∧
    PolarTransform.transformPoint (some 1) (0, 0) = (none, none) :=
  ⟨⟨by norm_num, by norm_num⟩,
    forward_masks_below_rmin 1 0 0 (by norm_num) (by norm_num)⟩

/-- C3 counterexample: inverting an inverse polar projection bound to the
`rmin` source with value `1` yields a forward projection bound to NO source
(`axis=None`), not to the same source. -/
theorem inverted_inverted_drops_axis :
    invertedPolarTransformInverted (some (1 : ℝ)) = none ∧
    some (1 : ℝ) ≠ (none : Option ℝ) :=
  ⟨rfl, by simp⟩

/-- C3 amended: inverting the forward polar projection returns an inverse
polar projection bound to the same `rmin` source, while inverting the inverse
polar projection returns a forward polar projection bound to no source
(`PolarAxes.PolarTransform()` with the default `axis=None`). -/
theorem inversion_bindings (axis : Option ℝ) :
    polarTransformInverted axis = axis ∧
    invertedPolarTransformInverted axis = none := by
  cases axis <;> exact ⟨rfl, rfl⟩

/-- C7: the forward projection with no bound `rmin` source maps every batch
row `(θ, r)` to `(r·cos θ, r·sin θ)` with no row masked to the nan sentinel,
and agrees with the bound variant whose `rmin` is `0` on every batch. -/
theorem unbound_variant_is_rmin_zero_case (batch : List (ℝ × ℝ)) :
    PolarTransform.transform none batch =
      batch.map (fun p => (some (p.2 * Real.cos p.1), some (p.2 * Real.sin p.1))) ∧
    PolarTransform.transform none batch = PolarTransform.transform (some 0) batch := by
  constructor <;> simp [PolarTransform.transform, PolarTransform.transformPoint]

/-- C9: calling `drag_pan` when the `_pan_start` gesture snapshot is absent —
never created, or discarded by `end_pan` — faults (`AttributeError`) instead
of silently doing nothing. -/
theorem drag_without_start_faults (st : AxesState) (x y : ℝ)
    (ps : Option PanStart) :
    drag_pan_checked st none x y = Except.error "AttributeError" ∧
    drag_pan_checked st (end_pan ps) x y = Except.error "AttributeError" :=
  ⟨rfl, rfl⟩

/-- C10: the radius locator returns no candidate `≤ 0`: every member of its
output (for an arbitrary underlying locator output list, negative and zero
values included) is strictly positive. -/
theorem radial_locator_candidates_positive (base : List ℝ) (x : ℝ)
    (hx : x ∈ radialLocator_call base) : 0 < x := by
  simp only [radialLocator_call, List.mem_filter, decide_eq_true_eq] at hx
  exact hx.2

/-- Witness for `radial_locator_candidates_positive` on the underlying output
`[-1, 0, 2]`. -/
theorem radial_locator_candidates_positive_witness :
    (2 : ℝ) ∈ radialLocator_call [-1, 0, 2] ∧ (0 : ℝ) < 2 :=
  ⟨by norm_num [radialLocator_call, List.filter],
   radial_locator_candidates_positive [-1, 0, 2] 2
     (by norm_num [radialLocator_call, List.filter])⟩

/-- C6: the radial affine acts on every point as a uniform scale by
`0.5 / yscale` followed by a translation by `(0.5, 0.5)`, where `yscale` is
the difference of the images of the radial view limits under the upstream
axis-scale transform; with `rmin = 0`, `rmax = 10` and the identity (linear)
upstream scale it maps the origin (radius 0) to the centre `(0.5, 0.5)` and
every point at radius 10 to a point at distance 0.5 from the centre. -/
theorem polar_affine_scale_then_translate (f : ℝ → ℝ) (ymin ymax : ℝ) :
    (∀ p : ℝ × ℝ, (PolarAffine.get_matrix f ymin ymax).apply p =
      (0.5 / (f ymax - f ymin) * p.1 + 0.5,
       0.5 / (f ymax - f ymin) * p.2 + 0.5)) ∧
    (PolarAffine.get_matrix id 0 10).apply (0, 0) = (0.5, 0.5) ∧
    (∀ q : ℝ × ℝ, q.1 ^ 2 + q.2 ^ 2 = 10 ^ 2 →
      (((PolarAffine.get_matrix id 0 10).apply q).1 - 0.5) ^ 2 +
        (((PolarAffine.get_matrix id 0 10).apply q).2 - 0.5) ^ 2 = 0.5 ^ 2) := by
  refine ⟨?_, ?_, ?_⟩
  · intro p
    simp only [PolarAffine.get_matrix, Affine2D.identity, Affine2D.scale,
      Affine2D.translate, Affine2D.apply, Prod.mk.injEq]
    constructor <;> ring
  · simp only [PolarAffine.get_matrix, Affine2D.identity, Affine2D.scale,
      Affine2D.translate, Affine2D.apply, id]
    norm_num
  · intro q hq
    simp only [PolarAffine.get_matrix, Affine2D.identity, Affine2D.scale,
      Affine2D.translate, Affine2D.apply, id]
    ring_nf
    nlinarith [hq]

/-- Witness for `polar_affine_scale_then_translate`: the point `(6, 8)` at
radius 10 is mapped to a point at distance 0.5 from the centre. -/
theorem polar_affine_scale_then_translate_witness :
    ((6 : ℝ) ^ 2 + (8 : ℝ) ^ 2 = 10 ^ 2) ∧
    (((PolarAffine.get_matrix id 0 10).apply (6, 8)).1 - 0.5) ^ 2 +
      (((PolarAffine.get_matrix id 0 10).apply (6, 8)).2 - 0.5) ^ 2 = 0.5 ^ 2 :=
  ⟨by norm_num,
   (polar_affine_scale_then_translate id 0 10).2.2 (6, 8) (by norm_num)⟩

/-- C5: for every drag event in zoom mode with nonzero starting radius, the
new `rmax` equals the gesture-start `rmax` divided by the ratio of the current
pointer radius to the starting pointer radius, both recovered through the
frozen inverse transform. -/
theorem zoom_sets_rmax_by_radius_ratio (st : AxesState) (p : PanStart)
    (x y : ℝ) (hmode : p.mode = PanMode.zoom)
    (_hstart : (p.trans_inverse (p.x, p.y)).2 ≠ 0) :
    (drag_pan st p x y).rmax =
      p.rmax / ((p.trans_inverse (x, y)).2 / (p.trans_inverse (p.x, p.y)).2) := by
  simp only [drag_pan, hmode]

/-- Witness for `zoom_sets_rmax_by_radius_ratio`: starting `rmax = 10`,
starting pointer radius 5 (pointer at `(0, 5)` through the identity frozen
inverse), current pointer radius 10 give new `rmax = 5`. -/
theorem zoom_sets_rmax_by_radius_ratio_witness :
    (drag_pan ⟨Affine2D.identity, Affine2D.identity, 10⟩
      ⟨10, (fun q => q), (fun q => q), 22.5, 0, 5, PanMode.zoom⟩ 0 10).rmax = 5 := by
  have h := zoom_sets_rmax_by_radius_ratio
    ⟨Affine2D.identity, Affine2D.identity, 10⟩
    ⟨10, (fun q => q), (fun q => q), 22.5, 0, 5, PanMode.zoom⟩
    0 10 rfl (by norm_num)
  rw [h]
  norm_num

/-- C4 counterexample: start angle `0`, current pointer angle `3π/2` (both
through the identity frozen inverse).  The wrap-aware shorter direction is
`-π/2`, so the claim puts the primary anchor at `0 - 90 = -90` degrees, but
the code stores `270`: the delta is the raw difference, not the wrap-aware
one (the shorter-direction branch compares `|dt1| = |startt - t|` with
`|dt0| = |t - startt|`, which are always equal, so it never fires). -/
theorem drag_label_not_wrap_aware :
    (drag_pan ⟨Affine2D.identity, Affine2D.identity, 1⟩
      ⟨1, (fun q => q), (fun q => q), 0, 0, 0, PanMode.drag_r_labels⟩
      (3 * Real.pi / 2) 0).r_label1_position.c = 270 ∧
    (0 : ℝ) - (-(wrapAwareDelta 0 (3 * Real.pi / 2)) / Real.pi * 180) = -90 ∧
    (270 : ℝ) ≠ -90 := by
  refine ⟨?_, ?_, by norm_num⟩
  · simp only [drag_pan]
    rw [if_neg (by rw [abs_sub_comm]; exact lt_irrefl _)]
    simp only [Affine2D.translate, Affine2D.identity]
    have hπ : Real.pi ≠ 0 := Real.pi_ne_zero
    field_simp
    ring
  · have h1 : |3 * Real.pi / 2 - 0 - 2 * Real.pi| = Real.pi / 2 := by
      rw [abs_of_nonpos (by nlinarith [Real.pi_pos])]
      ring
    have h2 : |3 * Real.pi / 2 - (0 : ℝ)| = 3 * Real.pi / 2 := by
      rw [abs_of_nonneg (by nlinarith [Real.pi_pos])]
      ring
    have hd : wrapAwareDelta 0 (3 * Real.pi / 2) = 3 * Real.pi / 2 - 0 - 2 * Real.pi := by
      simp only [wrapAwareDelta]
      rw [if_pos (by nlinarith [Real.pi_pos] : (0 : ℝ) ≤ 3 * Real.pi / 2 - 0)]
      rw [if_pos (by rw [h1, h2]; nlinarith [Real.pi_pos])]
    rw [hd]
    have hπ : Real.pi ≠ 0 := Real.pi_ne_zero
    field_simp
    ring

/-- C4 amended: in drag-label mode the angular delta is the raw difference
between the current and starting pointer angles recovered through the frozen
inverse transform — not the wrap-aware shorter direction, whose branch is
unreachable because the two candidate deltas are exact negatives of equal
magnitude — negated, converted to degrees; both radial-label anchors are set
to `start_angle - delta`, the secondary with its radial padding sign
inverted relative to the primary's. -/
theorem drag_label_uses_raw_delta (st : AxesState) (p : PanStart) (x y : ℝ)
    (hmode : p.mode = PanMode.drag_r_labels) :
    drag_pan st p x y =
      { st with
        r_label1_position := Affine2D.identity.translate
          (p.r_label_angle -
            ((p.trans_inverse (x, y)).1 - (p.trans_inverse (p.x, p.y)).1) * (-1)
              / Real.pi * 180)
          st.r_label1_position.f
        r_label2_position := Affine2D.identity.translate
          (p.r_label_angle -
            ((p.trans_inverse (x, y)).1 - (p.trans_inverse (p.x, p.y)).1) * (-1)
              / Real.pi * 180)
          (-st.r_label1_position.f) } := by
  simp only [drag_pan, hmode]
  rw [if_neg (by rw [abs_sub_comm]; exact lt_irrefl _)]

/-- Witness for `drag_label_uses_raw_delta`: a zero-length drag starting at
label angle `22.5` with padding `0.05` keeps the primary anchor at
`22.5 - 0` and flips the secondary padding sign. -/
theorem drag_label_uses_raw_delta_witness :
    drag_pan
      ⟨Affine2D.identity.translate 22.5 0.05,
       Affine2D.identity.translate 22.5 (-0.05), 1⟩
      ⟨1, (fun q => q), (fun q => q), 22.5, 0, 0, PanMode.drag_r_labels⟩ 0 0 =
    { r_label1_position :=
        Affine2D.identity.translate (22.5 - ((0 : ℝ) - 0) * (-1) / Real.pi * 180) (0 + 0.05)
      r_label2_position :=
        Affine2D.identity.translate (22.5 - ((0 : ℝ) - 0) * (-1) / Real.pi * 180) (-(0 + 0.05))
      rmax := 1 } :=
  drag_label_uses_raw_delta
    ⟨Affine2D.identity.translate 22.5 0.05,
     Affine2D.identity.translate 22.5 (-0.05), 1⟩
    ⟨1, (fun q => q), (fun q => q), 22.5, 0, 0, PanMode.drag_r_labels⟩ 0 0 rfl

/-- Length of one resampled edge. -/
theorem interpEdge_length (steps : ℕ) (p q : ℝ × ℝ) :
    (interpEdge steps p q).length = steps := by
  unfold interpEdge
  rw [List.length_map, List.length_range]

/-- Length of the resampled vertex list: `n` vertices become
`steps * (n - 1) + 1`. -/
theorem interpolated_length (steps : ℕ) :
    ∀ vs : List (ℝ × ℝ), vs ≠ [] →
      (interpolated steps vs).length = steps * (vs.length - 1) + 1
  | [], h => absurd rfl h
  | [p], _ => by simp [interpolated]
  | p :: q :: rest, _ => by
    have ih := interpolated_length steps (q :: rest) (by simp)
    simp only [interpolated, List.length_append, interpEdge_length, ih,
      List.length_cons, Nat.add_sub_cancel]
    ring

/-- C8: a two-vertex path with equal angle coordinates is projected without
interpolation (output vertex count equals input count, 2); a two-vertex path
with differing angles, or any path with at least three vertices, is first
resampled to strictly more vertices when the interpolation step count
exceeds 1. -/
theorem two_vertex_radial_path_not_interpolated (axis : Option ℝ) (steps : ℕ)
    (hsteps : 1 < steps) :
    (∀ v0 v1 : ℝ × ℝ, v0.1 = v1.1 →
      (transform_path axis steps [v0, v1]).length = 2) ∧
    (∀ v0 v1 : ℝ × ℝ, v0.1 ≠ v1.1 →
      ([v0, v1] : List (ℝ × ℝ)).length <
        (transform_path axis steps [v0, v1]).length) ∧
    (∀ vs : List (ℝ × ℝ), 3 ≤ vs.length →
      vs.length < (transform_path axis steps vs).length) := by
  refine ⟨?_, ?_, ?_⟩
  · intro v0 v1 h
    have he : transform_path axis steps [v0, v1]
        = PolarTransform.transform axis [v0, v1] := by
      show (if v0.1 = v1.1 then PolarTransform.transform axis [v0, v1]
        else PolarTransform.transform axis (interpolated steps [v0, v1])) = _
      rw [if_pos h]
    rw [he]
    simp [PolarTransform.transform]
  · intro v0 v1 h
    have he : transform_path axis steps [v0, v1]
        = PolarTransform.transform axis (interpolated steps [v0, v1]) := by
      show (if v0.1 = v1.1 then PolarTransform.transform axis [v0, v1]
        else PolarTransform.transform axis (interpolated steps [v0, v1])) = _
      rw [if_neg h]
    rw [he]
    simp only [PolarTransform.transform, List.length_map,
      interpolated_length steps [v0, v1] (by simp), List.length_cons,
      List.length_nil]
    omega
  · intro vs h3
    rcases vs with _ | ⟨a, _ | ⟨b, _ | ⟨c, rest⟩⟩⟩
    · simp at h3
    · simp at h3
    · simp at h3
    · have he : transform_path axis steps (a :: b :: c :: rest)
          = PolarTransform.transform axis (interpolated steps (a :: b :: c :: rest)) := rfl
      rw [he]
      simp only [PolarTransform.transform, List.length_map,
        interpolated_length steps (a :: b :: c :: rest) (by simp),
        List.length_cons, Nat.add_sub_cancel]
      calc rest.length + 1 + 1 + 1
          < 2 * (rest.length + 1 + 1) + 1 := by omega
        _ ≤ steps * (rest.length + 1 + 1) + 1 :=
            Nat.add_le_add_right (Nat.mul_le_mul hsteps (le_refl _)) 1

/-- Witness for `two_vertex_radial_path_not_interpolated` with
`steps = 2`: a two-vertex pure radial path keeps its 2 vertices; a
three-vertex path gains vertices. -/
theorem two_vertex_radial_path_not_interpolated_witness :
    (transform_path none 2 [((0 : ℝ), (0 : ℝ)), ((0 : ℝ), (1 : ℝ))]).length = 2 ∧
    ([((0 : ℝ), (0 : ℝ)), ((1 : ℝ), (0 : ℝ)), ((2 : ℝ), (0 : ℝ))] :
        List (ℝ × ℝ)).length <
      (transform_path none 2
        [((0 : ℝ), (0 : ℝ)), ((1 : ℝ), (0 : ℝ)), ((2 : ℝ), (0 : ℝ))]).length :=
  ⟨(two_vertex_radial_path_not_interpolated none 2 (by norm_num)).1
      (0, 0) (0, 1) rfl,
   (two_vertex_radial_path_not_interpolated none 2 (by norm_num)).2.2
      [(0, 0), (1, 0), (2, 0)] (by simp)⟩

end PolarSpec
